import Mathlib

/-!
Verification development for the WireGuard socket-interception layer of
moonlight-android (`app/src/main/jni/moonlight-core-rs/wg_intercept.h` and the
tunnel-aware socket layer it dispatches to).

Part 1 embeds the compile-time call substitution performed by the header
(the only code of the layer present in the tree): each of the five standard
socket calls is rewritten, by a function-like textual substitution rule, to
the corresponding `wg_*` entry point.

Part 2 models the runtime layer (socket registry, classifier, UDP tunnel
path, virtual TCP transport, interception facade) from the design
specification, since its implementation is not part of the tree.
-/

namespace WgIntercept

/-! ## Part 1: compile-time call substitution (from wg_intercept.h) -/

/-- A C call expression: a callee name applied to a list of argument tokens. -/
structure CallExpr where
  callee : String
  args : List String
deriving DecidableEq, Repr

/-- A function-like textual substitution rule: a name, parameter list, and a
body that is a single call whose arguments are parameter tokens. -/
structure SubstRule where
  lhsName : String
  params : List String
  body : CallExpr
deriving DecidableEq, Repr

/-- Header rule `#define sendto(s,b,l,f,a,al) wg_sendto(s,b,l,f,a,al)`. -/
def sendtoRule : SubstRule :=
  ⟨"sendto", ["s", "b", "l", "f", "a", "al"],
   ⟨"wg_sendto", ["s", "b", "l", "f", "a", "al"]⟩⟩

/-- Header rule `#define recvfrom(s,b,l,f,a,al) wg_recvfrom(s,b,l,f,a,al)`. -/
def recvfromRule : SubstRule :=
  ⟨"recvfrom", ["s", "b", "l", "f", "a", "al"],
   ⟨"wg_recvfrom", ["s", "b", "l", "f", "a", "al"]⟩⟩

/-- Header rule `#define connect(s,a,l) wg_udp_connect(s,a,l)`. -/
def connectRule : SubstRule :=
  ⟨"connect", ["s", "a", "l"], ⟨"wg_udp_connect", ["s", "a", "l"]⟩⟩

/-- Header rule `#define send(s,b,l,f) wg_tcp_send(s,b,l,f)`. -/
def sendRule : SubstRule :=
  ⟨"send", ["s", "b", "l", "f"], ⟨"wg_tcp_send", ["s", "b", "l", "f"]⟩⟩

/-- Header rule `#define recv(s,b,l,f) wg_tcp_recv(s,b,l,f)`. -/
def recvRule : SubstRule :=
  ⟨"recv", ["s", "b", "l", "f"], ⟨"wg_tcp_recv", ["s", "b", "l", "f"]⟩⟩

/-- Substitute a body token: a parameter token is replaced by the actual
argument at the parameter's position, any other token is left unchanged. -/
def substArg (params : List String) (args : List String) (tok : String) : String :=
  match params.indexOf? tok with
  | some i => args.getD i tok
  | none => tok

/-- Expand one substitution rule at a call site: applies when the callee name
matches and the argument count equals the parameter count; the result is the
body call with parameters replaced by the actual arguments. -/
def expandRule (r : SubstRule) (c : CallExpr) : Option CallExpr :=
  if c.callee = r.lhsName ∧ c.args.length = r.params.length then
    some ⟨r.body.callee, r.body.args.map (substArg r.params c.args)⟩
  else none

/-! ## Part 2: runtime layer, modelled from the specification -/

/-- Modelled from the spec: a network endpoint (host and port); "a destination
address is tunnel peer if it equals the configured WireGuard server endpoint
(exact host:port match)". -/
structure Endpoint where
  host : Nat
  port : Nat
deriving DecidableEq, Repr

/-- The IPv4 loopback host 127.0.0.1, as the 32-bit value the OS reports as
the apparent source of loopback-injected datagrams. -/
def loopbackHost : Nat := 2130706433

/-- Modelled from the spec: socket protocol, `{UDP, TCP}`. -/
inductive Protocol where
  | udp
  | tcp
deriving DecidableEq, Repr

/-- Modelled from the spec: socket mode,
`{Untracked, TunnelDirect, InjectDelivery}`. -/
inductive Mode where
  | untracked
  | tunnelDirect
  | injectDelivery
deriving DecidableEq, Repr

/-- Modelled from the spec: the Classifier's output — `Passthrough`,
`TunnelDirect`, `AutoRegisterInject`, or the continued `InjectDelivery`
treatment of an already-registered handle. -/
inductive Classification where
  | passthrough
  | tunnelDirectC
  | injectDeliveryC
  | autoRegisterInject
deriving DecidableEq, Repr

/-- Modelled from the spec: the Virtual TCP Connection state embedded in a
TCP Socket Entry — a send buffer with capacity, a flow-control window
(in-flight byte limit), the transmitted-byte high mark, a
sequence-number-keyed set of received segments (deduplicated on insert), and
a read pointer into the contiguous received stream. -/
structure VtcpConn where
  capacity : Nat
  window : Nat
  sendBuf : List Nat
  flightBytes : Nat
  rcvSet : List (Nat × List Nat)
  readPtr : Nat
deriving DecidableEq, Repr

/-- Modelled from the spec: one Socket Entry per OS handle known to the
system: protocol, mode, the logical `peer_address`, and the Virtual TCP
Connection state when the handle is a tracked TCP-over-tunnel socket. -/
structure SocketEntry where
  protocol : Protocol
  mode : Mode
  peer_address : Option Endpoint
  tcp_state : Option VtcpConn
deriving DecidableEq, Repr

/-- Modelled from the spec: `lookup(handle) -> Option<Entry>`. -/
def lookupReg : List (Nat × SocketEntry) → Nat → Option SocketEntry
  | [], _ => none
  | (k, v) :: rest, h => if k = h then some v else lookupReg rest h

/-- Modelled from the spec: `insert(handle, entry)`; an insert for a handle
that already exists overwrites the prior entry. -/
def insertReg (reg : List (Nat × SocketEntry)) (h : Nat) (e : SocketEntry) :
    List (Nat × SocketEntry) :=
  (h, e) :: reg

/-- Modelled from the spec: `remove(handle)`, called when the OS socket
handle is closed. -/
def removeReg : List (Nat × SocketEntry) → Nat → List (Nat × SocketEntry)
  | [], _ => []
  | (k, v) :: rest, h => if k = h then removeReg rest h else (k, v) :: removeReg rest h

/-- Modelled from the spec: an encapsulated tunnel datagram — the wire
destination plus the ciphertext body produced by the cryptographic
collaborator. -/
structure TunnelDatagram where
  dest : Endpoint
  body : List Nat
deriving DecidableEq, Repr

/-- Modelled from the spec: the configuration and external collaborators the
layer consumes — the tunnel peer endpoint (configured once at startup), the
cryptographic `encode`/`decode` service, and the real OS socket API as
result oracles for passthrough calls. -/
structure WgConfig where
  tunnelPeer : Endpoint
  encode : List Nat → List Nat
  decode : List Nat → Option (List Nat)
  osConnectRes : Nat → Endpoint → Int
  osSendtoRes : Nat → List Nat → Endpoint → Int
  osSendRes : Nat → List Nat → Int
  osRecvRes : Nat → Nat → List Nat

/-- Modelled from the spec: the observable state of the layer — the Socket
Registry plus traces of the real OS calls performed (connects and sendtos
that passed through) and of the tunnel datagrams handed to the Tunnel
Session for the wire. -/
structure NetState where
  registry : List (Nat × SocketEntry)
  osConnects : List (Nat × Endpoint)
  osSendtos : List (Nat × List Nat × Endpoint)
  tunnelOut : List TunnelDatagram

/-- The initial state: empty registry, no OS calls, nothing sent. -/
def initNetState : NetState := ⟨[], [], [], []⟩

/-- Modelled from the spec: `encapsulate(payload, destination) ->
tunnel_datagram`; cryptographic framing is delegated to the collaborator's
`encode`. -/
def encapsulate (cfg : WgConfig) (payload : List Nat) (dest : Endpoint) :
    TunnelDatagram :=
  ⟨dest, cfg.encode payload⟩

/-- Modelled from the spec: `decapsulate(tunnel_datagram) -> (payload,
true_source)`; decoding is delegated to the collaborator, and the true
source of tunnel traffic is always the tunnel peer. -/
def decapsulate (cfg : WgConfig) (d : TunnelDatagram) :
    Option (List Nat × Endpoint) :=
  (cfg.decode d.body).map (fun p => (p, cfg.tunnelPeer))

/-- Modelled from the spec: the UDP Classifier. A handle already classified
for tunnel use keeps that classification (sticky tie-break rule, regardless
of the destination of the present call); otherwise a destination equal to
the tunnel peer yields `AutoRegisterInject` and any other destination is
`Passthrough`. -/
def classifyUdp (cfg : WgConfig) (reg : List (Nat × SocketEntry)) (h : Nat)
    (dest : Endpoint) : Classification :=
  match lookupReg reg h with
  | some e =>
    match e.mode with
    | .tunnelDirect => .tunnelDirectC
    | .injectDelivery => .injectDeliveryC
    | .untracked =>
      if dest = cfg.tunnelPeer then .autoRegisterInject else .passthrough
  | none =>
    if dest = cfg.tunnelPeer then .autoRegisterInject else .passthrough

/-- Modelled from the spec: the intercepted `connect`. For a UDP socket whose
destination is the tunnel peer, the real OS connect is skipped and the
destination is recorded as `peer_address` (on a TunnelDirect entry when the
handle had no tunnel classification; an already-classified handle keeps its
sticky classification). Otherwise the real OS connect is performed unchanged
and its result returned. -/
def wg_udp_connect (cfg : WgConfig) (st : NetState) (h : Nat)
    (proto : Protocol) (dest : Endpoint) : Int × NetState :=
  if proto = .udp ∧ dest = cfg.tunnelPeer then
    match lookupReg st.registry h with
    | some e =>
      if e.mode = .tunnelDirect ∨ e.mode = .injectDelivery then
        (0, { st with registry := insertReg st.registry h { e with peer_address := some dest } })
      else
        (0, { st with registry := insertReg st.registry h ⟨.udp, .tunnelDirect, some dest, none⟩ })
    | none =>
      (0, { st with registry := insertReg st.registry h ⟨.udp, .tunnelDirect, some dest, none⟩ })
  else
    (cfg.osConnectRes h dest, { st with osConnects := st.osConnects ++ [(h, dest)] })

/-- Modelled from the spec: the intercepted `sendto`. UDP calls are
classified; tunnel classes hand the payload to the Tunnel Session for
encapsulation (an `AutoRegisterInject` call first registers the handle for
inject-mode delivery) and mirror the byte count the real `sendto` would
report; `Passthrough` and non-UDP calls invoke the real OS `sendto` with the
original arguments and return its result unchanged. -/
def wg_sendto (cfg : WgConfig) (st : NetState) (h : Nat) (proto : Protocol)
    (payload : List Nat) (dest : Endpoint) : Int × NetState :=
  if proto = .udp then
    match classifyUdp cfg st.registry h dest with
    | .passthrough =>
      (cfg.osSendtoRes h payload dest,
       { st with osSendtos := st.osSendtos ++ [(h, payload, dest)] })
    | .tunnelDirectC =>
      ((payload.length : Int),
       { st with tunnelOut := st.tunnelOut ++ [encapsulate cfg payload dest] })
    | .injectDeliveryC =>
      ((payload.length : Int),
       { st with tunnelOut := st.tunnelOut ++ [encapsulate cfg payload dest] })
    | .autoRegisterInject =>
      ((payload.length : Int),
       { st with
           registry := insertReg st.registry h ⟨.udp, .injectDelivery, some dest, none⟩,
           tunnelOut := st.tunnelOut ++ [encapsulate cfg payload dest] })
  else
    (cfg.osSendtoRes h payload dest,
     { st with osSendtos := st.osSendtos ++ [(h, payload, dest)] })

/-- Modelled from the spec: the intercepted `recvfrom`. `osResult` is what
the real OS call delivered (payload and apparent source, which is loopback
for injected data). On an InjectDelivery handle the reported source address
is rewritten to the handle's stored `peer_address`; otherwise the OS result
is returned unchanged. -/
def wg_recvfrom (cfg : WgConfig) (st : NetState) (h : Nat)
    (osResult : Option (List Nat × Endpoint)) : Option (List Nat × Endpoint) :=
  match lookupReg st.registry h, osResult with
  | some e, some (payload, src) =>
    if e.mode = .injectDelivery then
      some (payload, e.peer_address.getD src)
    else
      some (payload, src)
  | _, r => r

/-! ### Virtual TCP Transport (modelled from the spec, §4.3) -/

/-- Cut a byte stream into chunks of at most `chunk` bytes; `fuel` bounds the
recursion and any `fuel ≥ bytes.length` is enough when `chunk ≠ 0`. -/
def segmentChunks (chunk : Nat) : Nat → List Nat → List (List Nat)
  | 0, _ => []
  | _ + 1, [] => []
  | fuel + 1, bytes =>
    bytes.take chunk :: segmentChunks chunk fuel (bytes.drop chunk)

/-- Modelled from the spec: split a byte stream into data segments of at most
`chunk` bytes each (the segment size imposed by the flow-control window /
tunnel datagram size), numbered by position. -/
def segmentBytes (chunk : Nat) (bytes : List Nat) : List (List Nat) :=
  segmentChunks chunk bytes.length bytes

/-- Look up a received segment by sequence number. -/
def lookupKey : Nat → List (Nat × List Nat) → Option (List Nat)
  | _, [] => none
  | i, (k, d) :: rest => if k = i then some d else lookupKey i rest

/-- Modelled from the spec: admit an arriving segment into the receive set,
deduplicated by sequence number — a retransmitted duplicate of an
already-received segment is dropped. -/
def rsInsert (got : List (Nat × List Nat)) (seg : Nat × List Nat) :
    List (Nat × List Nat) :=
  match lookupKey seg.1 got with
  | some _ => got
  | none => seg :: got

/-- Read the contiguous byte stream available from sequence number `i`
upward: segments are concatenated in sequence order and a gap ends the
stream (later segments are held back until the gap is filled). `fuel` bounds
the recursion. -/
def readFrom (got : List (Nat × List Nat)) : Nat → Nat → List Nat
  | 0, _ => []
  | fuel + 1, i =>
    match lookupKey i got with
    | some d => d ++ readFrom got fuel (i + 1)
    | none => []

/-- The full in-order byte stream currently reconstructible from the receive
set, starting at sequence number 0. -/
def contigStream (got : List (Nat × List Nat)) : List Nat :=
  readFrom got (got.length + 1) 0

/-- Modelled from the spec: the `send`-equivalent of the Virtual TCP
Transport. Bytes are appended to the send buffer up to its free capacity;
the transport immediately attempts to transmit segments up to the in-flight
byte limit (flow-control window), excess bytes remaining buffered. Returns
the number of bytes accepted into the buffer. -/
def vtcpSend (conn : VtcpConn) (data : List Nat) : Nat × VtcpConn :=
  let free := conn.capacity - conn.sendBuf.length
  let accepted := min data.length free
  let buf := conn.sendBuf ++ data.take accepted
  let fly := max conn.flightBytes (min buf.length conn.window)
  (accepted, { conn with sendBuf := buf, flightBytes := fly })

/-- Modelled from the spec: the `recv`-equivalent of the Virtual TCP
Transport — return up to `n` bytes from the front of the contiguous receive
stream, in stream order, removing them (via the read pointer). -/
def vtcpRecv (conn : VtcpConn) (n : Nat) : List Nat × VtcpConn :=
  let stream := contigStream conn.rcvSet
  let out := (stream.drop conn.readPtr).take n
  (out, { conn with readPtr := conn.readPtr + out.length })

/-- Deliver one tunnel-carried data segment (sequence number and payload) to
the connection's receive set. -/
def vtcpDeliver (conn : VtcpConn) (seg : Nat × List Nat) : VtcpConn :=
  { conn with rcvSet := rsInsert conn.rcvSet seg }

/-- Deliver a whole schedule of tunnel datagram arrivals, in arrival order. -/
def vtcpDeliverAll (conn : VtcpConn) (sched : List (Nat × List Nat)) : VtcpConn :=
  sched.foldl vtcpDeliver conn

/-- Perform a sequence of `recv` calls with the given maximum sizes and
concatenate the returned bytes. -/
def vtcpRecvAll (conn : VtcpConn) : List Nat → List Nat × VtcpConn
  | [] => ([], conn)
  | n :: rest =>
    let r := vtcpRecv conn n
    let rs := vtcpRecvAll r.2 rest
    (r.1 ++ rs.1, rs.2)

/-- A fresh Virtual TCP Connection with the given buffer capacity and
flow-control window. -/
def initVtcp (capacity window : Nat) : VtcpConn :=
  ⟨capacity, window, [], 0, [], 0⟩

/-- Modelled from the spec: the intercepted `send`. A handle whose registry
entry carries Virtual TCP Connection state is dispatched to the Virtual TCP
Transport; any other handle — in particular one with no registry entry at
all — is passed through unchanged to the real OS `send` and receives the
real result (unknown classification is passthrough, never a failure). -/
def wg_tcp_send (cfg : WgConfig) (st : NetState) (h : Nat) (data : List Nat) :
    Int × NetState :=
  match lookupReg st.registry h with
  | some e =>
    match e.tcp_state with
    | some conn =>
      let r := vtcpSend conn data
      ((r.1 : Int),
       { st with registry := insertReg st.registry h { e with tcp_state := some r.2 } })
    | none => (cfg.osSendRes h data, st)
  | none => (cfg.osSendRes h data, st)

/-- Modelled from the spec: the intercepted `recv`. A handle with Virtual
TCP Connection state reads from the Virtual TCP Transport's receive stream;
any other handle is passed through unchanged to the real OS `recv`. -/
def wg_tcp_recv (cfg : WgConfig) (st : NetState) (h : Nat) (n : Nat) :
    List Nat × NetState :=
  match lookupReg st.registry h with
  | some e =>
    match e.tcp_state with
    | some conn =>
      let r := vtcpRecv conn n
      (r.1,
       { st with registry := insertReg st.registry h { e with tcp_state := some r.2 } })
    | none => (cfg.osRecvRes h n, st)
  | none => (cfg.osRecvRes h n, st)

/-! ### Facade call sequences and reachable states -/

/-- One intercepted socket-layer operation, as the facade sees it. -/
inductive SockOp where
  | opConnect (h : Nat) (proto : Protocol) (dest : Endpoint)
  | opSendto (h : Nat) (proto : Protocol) (payload : List Nat) (dest : Endpoint)
  | opVtcpOpen (h : Nat) (dest : Endpoint) (capacity window : Nat)
  | opTcpSend (h : Nat) (payload : List Nat)
  | opClose (h : Nat)
deriving DecidableEq

/-- Modelled from the spec: execute one facade operation against the layer's
state. `opVtcpOpen` is the Virtual TCP Transport's connect-equivalent for a
TCP socket targeting the tunnel peer (TCP sockets are only tracked if their
connect targeted the tunnel peer); `opClose` removes the handle's registry
entry. -/
def execOp (cfg : WgConfig) (st : NetState) : SockOp → NetState
  | .opConnect h proto dest => (wg_udp_connect cfg st h proto dest).2
  | .opSendto h proto payload dest => (wg_sendto cfg st h proto payload dest).2
  | .opVtcpOpen h dest capacity window =>
    if lookupReg st.registry h = none ∧ dest = cfg.tunnelPeer then
      let e : SocketEntry := ⟨.tcp, .tunnelDirect, some dest, some (initVtcp capacity window)⟩
      { st with registry := insertReg st.registry h e }
    else st
  | .opTcpSend h payload => (wg_tcp_send cfg st h payload).2
  | .opClose h => { st with registry := removeReg st.registry h }

/-- Execute a sequence of facade operations from a starting state. -/
def execOps (cfg : WgConfig) (ops : List SockOp) (st : NetState) : NetState :=
  ops.foldl (execOp cfg) st

/-- The classification a tunnel-classified mode induces on every later call. -/
def modeClass : Mode → Classification
  | .tunnelDirect => .tunnelDirectC
  | .injectDelivery => .injectDeliveryC
  | .untracked => .passthrough

/-! ### Concrete instances used by witnesses and counterexamples -/

/-- A concrete configuration: tunnel peer at host 1, port 51820, identity
cryptographic framing, and trivial OS result oracles. -/
def wCfg : WgConfig :=
  ⟨⟨1, 51820⟩, fun b => b, fun b => some b,
   fun _ _ => 0, fun _ _ _ => 0, fun _ _ => 0, fun _ _ => []⟩

/-- A concrete state whose registry holds an InjectDelivery entry for
handle 5 with the tunnel peer as `peer_address`. -/
def wSt1 : NetState :=
  ⟨[(5, ⟨.udp, .injectDelivery, some ⟨1, 51820⟩, none⟩)], [], [], []⟩

/-- A concrete operation sequence touching handle 5 with a destination
different from the tunnel peer, plus an unrelated connect; no close of 5. -/
def wOps1 : List SockOp :=
  [.opSendto 5 .udp [1, 2] ⟨9, 9⟩, .opConnect 7 .udp ⟨9, 9⟩]

/-- A concrete operation sequence that auto-registers handle 5 by a `sendto`
to the tunnel peer. -/
def wOps2 : List SockOp := [.opSendto 5 .udp [9] ⟨1, 51820⟩]

/-- A concrete state with a tracked virtual-TCP entry for handle 8. -/
def wStTcp : NetState :=
  ⟨[(8, ⟨.tcp, .tunnelDirect, some ⟨1, 51820⟩, some (initVtcp 100 10)⟩)], [], [], []⟩

/-- Fold a sequence of `sendto` calls for the given payloads, in order, on
one handle towards one destination. -/
def sendtoSeq (cfg : WgConfig) (st : NetState) (h : Nat)
    (payloads : List (List Nat)) (dest : Endpoint) : NetState :=
  payloads.foldl (fun s p => (wg_sendto cfg s h .udp p dest).2) st

/-- The registry invariant maintained by every facade operation: each
tunnel-classified entry (and every entry ever created is tunnel-classified)
stores the configured tunnel peer as its `peer_address`. -/
def RegInv (cfg : WgConfig) (reg : List (Nat × SocketEntry)) : Prop :=
  ∀ h e, lookupReg reg h = some e →
    (e.mode = .tunnelDirect ∨ e.mode = .injectDelivery) ∧
    e.peer_address = some cfg.tunnelPeer

/-! ## Registry lemmas -/

theorem lookup_insert_self (reg : List (Nat × SocketEntry)) (h : Nat)
    (e : SocketEntry) : lookupReg (insertReg reg h e) h = some e := by
  simp [insertReg, lookupReg]

theorem lookup_insert_ne (reg : List (Nat × SocketEntry)) (h' h : Nat)
    (e : SocketEntry) (hne : h' ≠ h) :
    lookupReg (insertReg reg h' e) h = lookupReg reg h := by
  simp [insertReg, lookupReg, hne]

theorem lookup_remove (reg : List (Nat × SocketEntry)) (h' h : Nat) :
    lookupReg (removeReg reg h') h =
      if h' = h then none else lookupReg reg h := by
  induction reg with
  | nil => simp [removeReg, lookupReg]
  | cons kv rest ih =>
    obtain ⟨k, v⟩ := kv
    by_cases hk : k = h'
    · subst hk
      by_cases hh : k = h
      · subst hh
        simp [removeReg, lookupReg, ih]
      · simp [removeReg, lookupReg, hh, ih]
    · by_cases hh : k = h
      · subst hh
        simp [removeReg, lookupReg, hk, Ne.symm hk]
      · simp [removeReg, lookupReg, hk, hh, ih]


/-- An `AutoRegisterInject` verdict can only arise for a destination equal to
the tunnel peer, on a handle with no tunnel classification. -/
theorem classify_auto_dest (cfg : WgConfig) (reg : List (Nat × SocketEntry))
    (h : Nat) (dest : Endpoint)
    (hc : classifyUdp cfg reg h dest = .autoRegisterInject) :
    dest = cfg.tunnelPeer := by
  by_cases hd : dest = cfg.tunnelPeer
  · exact hd
  · exfalso
    unfold classifyUdp at hc
    cases hl : lookupReg reg h with
    | none => simp [hl, hd] at hc
    | some e => cases hm : e.mode <;> simp [hl, hm, hd] at hc

/-- A tunnel-classified handle is classified by its stored mode alone. -/
theorem classify_of_mode (cfg : WgConfig) (reg : List (Nat × SocketEntry))
    (h : Nat) (dest : Endpoint) (e : SocketEntry)
    (hl : lookupReg reg h = some e)
    (hm : e.mode = .tunnelDirect ∨ e.mode = .injectDelivery) :
    classifyUdp cfg reg h dest = modeClass e.mode := by
  rcases hm with hm | hm <;> simp [classifyUdp, hl, hm, modeClass]

/-- One facade operation that is not a close of `h` preserves the tunnel
classification stored for `h`. -/
theorem execOp_preserves_mode (cfg : WgConfig) (st : NetState) (h : Nat)
    (m : Mode) (op : SockOp)
    (hm : m = .tunnelDirect ∨ m = .injectDelivery)
    (hop : op ≠ .opClose h)
    (hl : ∃ e, lookupReg st.registry h = some e ∧ e.mode = m) :
    ∃ e', lookupReg (execOp cfg st op).registry h = some e' ∧ e'.mode = m := by
  obtain ⟨e, hle, hem⟩ := hl
  have hme : e.mode = .tunnelDirect ∨ e.mode = .injectDelivery := by
    rw [hem]; exact hm
  cases op with
  | opConnect h' proto dest =>
    by_cases hcond : proto = .udp ∧ dest = cfg.tunnelPeer
    · by_cases hh : h' = h
      · subst hh
        refine ⟨{ e with peer_address := some dest }, ?_, hem⟩
        simp [execOp, wg_udp_connect, hcond, hle, hme, lookup_insert_self]
      · refine ⟨e, ?_, hem⟩
        cases hle' : lookupReg st.registry h' with
        | none =>
          simp [execOp, wg_udp_connect, hcond, hle', lookup_insert_ne _ _ _ _ hh, hle]
        | some e2 =>
          by_cases hm2 : e2.mode = .tunnelDirect ∨ e2.mode = .injectDelivery
          · simp [execOp, wg_udp_connect, hcond, hle', hm2,
              lookup_insert_ne _ _ _ _ hh, hle]
          · simp [execOp, wg_udp_connect, hcond, hle', hm2,
              lookup_insert_ne _ _ _ _ hh, hle]
    · refine ⟨e, ?_, hem⟩
      simp [execOp, wg_udp_connect, hcond, hle]
  | opSendto h' proto payload dest =>
    by_cases hproto : proto = .udp
    · cases hc : classifyUdp cfg st.registry h' dest with
      | passthrough =>
        refine ⟨e, ?_, hem⟩
        simp [execOp, wg_sendto, hproto, hc, hle]
      | tunnelDirectC =>
        refine ⟨e, ?_, hem⟩
        simp [execOp, wg_sendto, hproto, hc, hle]
      | injectDeliveryC =>
        refine ⟨e, ?_, hem⟩
        simp [execOp, wg_sendto, hproto, hc, hle]
      | autoRegisterInject =>
        by_cases hh : h' = h
        · exfalso
          subst hh
          rw [classify_of_mode cfg st.registry h' dest e hle hme] at hc
          rcases hme with hx | hx <;> rw [hx] at hc <;> simp [modeClass] at hc
        · refine ⟨e, ?_, hem⟩
          simp [execOp, wg_sendto, hproto, hc, lookup_insert_ne _ _ _ _ hh, hle]
    · refine ⟨e, ?_, hem⟩
      simp [execOp, wg_sendto, hproto, hle]
  | opVtcpOpen h' dest capacity window =>
    by_cases hcond : lookupReg st.registry h' = none ∧ dest = cfg.tunnelPeer
    · have hh : h' ≠ h := by
        intro heq
        rw [heq, hle] at hcond
        exact Option.noConfusion hcond.1
      refine ⟨e, ?_, hem⟩
      simp [execOp, hcond, lookup_insert_ne _ _ _ _ hh, hle]
    · refine ⟨e, ?_, hem⟩
      simp [execOp, hcond, hle]
  | opTcpSend h' payload =>
    cases hle' : lookupReg st.registry h' with
    | none =>
      refine ⟨e, ?_, hem⟩
      simp [execOp, wg_tcp_send, hle', hle]
    | some e2 =>
      cases hts : e2.tcp_state with
      | none =>
        refine ⟨e, ?_, hem⟩
        simp [execOp, wg_tcp_send, hle', hts, hle]
      | some conn =>
        by_cases hh : h' = h
        · subst hh
          have he2 : e2 = e := by
            rw [hle] at hle'
            exact (Option.some.inj hle').symm
          refine ⟨{ e2 with tcp_state := some (vtcpSend conn payload).2 }, ?_, by
            rw [he2]; exact hem⟩
          simp [execOp, wg_tcp_send, hle', hts, lookup_insert_self]
        · refine ⟨e, ?_, hem⟩
          simp [execOp, wg_tcp_send, hle', hts, lookup_insert_ne _ _ _ _ hh, hle]
  | opClose h' =>
    have hh : h' ≠ h := by
      intro heq
      exact hop (by rw [heq])
    refine ⟨e, ?_, hem⟩
    simp [execOp, lookup_remove, hh, hle]

/-- Inserting a tunnel-classified entry whose `peer_address` is the tunnel
peer preserves the registry invariant. -/
theorem reginv_insert (cfg : WgConfig) (reg : List (Nat × SocketEntry))
    (h : Nat) (e : SocketEntry) (hinv : RegInv cfg reg)
    (hme : e.mode = .tunnelDirect ∨ e.mode = .injectDelivery)
    (hpe : e.peer_address = some cfg.tunnelPeer) :
    RegInv cfg (insertReg reg h e) := by
  intro h2 e2 he2
  by_cases hh : h = h2
  · subst hh
    rw [lookup_insert_self] at he2
    obtain rfl := Option.some.inj he2
    exact ⟨hme, hpe⟩
  · rw [lookup_insert_ne _ _ _ _ hh] at he2
    exact hinv h2 e2 he2

/-- Every facade operation preserves the registry invariant. -/
theorem execOp_preserves_inv (cfg : WgConfig) (st : NetState) (op : SockOp)
    (hinv : RegInv cfg st.registry) : RegInv cfg (execOp cfg st op).registry := by
  cases op with
  | opConnect h' proto dest =>
    by_cases hcond : proto = .udp ∧ dest = cfg.tunnelPeer
    · obtain ⟨hp, hd⟩ := hcond
      subst hp
      subst hd
      cases hl : lookupReg st.registry h' with
      | none =>
        have hreg : (execOp cfg st (.opConnect h' .udp cfg.tunnelPeer)).registry =
            insertReg st.registry h' ⟨.udp, .tunnelDirect, some cfg.tunnelPeer, none⟩ := by
          simp [execOp, wg_udp_connect, hl]
        rw [hreg]
        exact reginv_insert cfg st.registry h' _ hinv (Or.inl rfl) rfl
      | some e =>
        by_cases hm : e.mode = .tunnelDirect ∨ e.mode = .injectDelivery
        · have hreg : (execOp cfg st (.opConnect h' .udp cfg.tunnelPeer)).registry =
              insertReg st.registry h' { e with peer_address := some cfg.tunnelPeer } := by
            simp [execOp, wg_udp_connect, hl, hm]
          rw [hreg]
          exact reginv_insert cfg st.registry h' _ hinv hm rfl
        · have hreg : (execOp cfg st (.opConnect h' .udp cfg.tunnelPeer)).registry =
              insertReg st.registry h' ⟨.udp, .tunnelDirect, some cfg.tunnelPeer, none⟩ := by
            simp [execOp, wg_udp_connect, hl, hm]
          rw [hreg]
          exact reginv_insert cfg st.registry h' _ hinv (Or.inl rfl) rfl
    · have hreg : (execOp cfg st (.opConnect h' proto dest)).registry = st.registry := by
        simp [execOp, wg_udp_connect, hcond]
      rw [hreg]
      exact hinv
  | opSendto h' proto payload dest =>
    by_cases hproto : proto = .udp
    · subst hproto
      cases hc : classifyUdp cfg st.registry h' dest with
      | passthrough =>
        have hreg : (execOp cfg st (.opSendto h' .udp payload dest)).registry =
            st.registry := by
          simp [execOp, wg_sendto, hc]
        rw [hreg]
        exact hinv
      | tunnelDirectC =>
        have hreg : (execOp cfg st (.opSendto h' .udp payload dest)).registry =
            st.registry := by
          simp [execOp, wg_sendto, hc]
        rw [hreg]
        exact hinv
      | injectDeliveryC =>
        have hreg : (execOp cfg st (.opSendto h' .udp payload dest)).registry =
            st.registry := by
          simp [execOp, wg_sendto, hc]
        rw [hreg]
        exact hinv
      | autoRegisterInject =>
        have hd := classify_auto_dest cfg st.registry h' dest hc
        subst hd
        have hreg : (execOp cfg st (.opSendto h' .udp payload cfg.tunnelPeer)).registry =
            insertReg st.registry h' ⟨.udp, .injectDelivery, some cfg.tunnelPeer, none⟩ := by
          simp [execOp, wg_sendto, hc]
        rw [hreg]
        exact reginv_insert cfg st.registry h' _ hinv (Or.inr rfl) rfl
    · have hreg : (execOp cfg st (.opSendto h' proto payload dest)).registry =
          st.registry := by
        simp [execOp, wg_sendto, hproto]
      rw [hreg]
      exact hinv
  | opVtcpOpen h' dest capacity window =>
    by_cases hcond : lookupReg st.registry h' = none ∧ dest = cfg.tunnelPeer
    · obtain ⟨hl, hd⟩ := hcond
      subst hd
      have hreg : (execOp cfg st (.opVtcpOpen h' cfg.tunnelPeer capacity window)).registry =
          insertReg st.registry h'
            ⟨.tcp, .tunnelDirect, some cfg.tunnelPeer, some (initVtcp capacity window)⟩ := by
        simp [execOp, hl]
      rw [hreg]
      exact reginv_insert cfg st.registry h' _ hinv (Or.inl rfl) rfl
    · have hreg : (execOp cfg st (.opVtcpOpen h' dest capacity window)).registry =
          st.registry := by
        simp [execOp, hcond]
      rw [hreg]
      exact hinv
  | opTcpSend h' payload =>
    cases hl : lookupReg st.registry h' with
    | none =>
      have hreg : (execOp cfg st (.opTcpSend h' payload)).registry = st.registry := by
        simp [execOp, wg_tcp_send, hl]
      rw [hreg]
      exact hinv
    | some e2 =>
      cases hts : e2.tcp_state with
      | none =>
        have hreg : (execOp cfg st (.opTcpSend h' payload)).registry = st.registry := by
          simp [execOp, wg_tcp_send, hl, hts]
        rw [hreg]
        exact hinv
      | some conn =>
        have hreg : (execOp cfg st (.opTcpSend h' payload)).registry =
            insertReg st.registry h'
              { e2 with tcp_state := some (vtcpSend conn payload).2 } := by
          simp [execOp, wg_tcp_send, hl, hts]
        rw [hreg]
        have h2 := hinv h' e2 hl
        exact reginv_insert cfg st.registry h' _ hinv h2.1 h2.2
  | opClose h' =>
    intro h e he
    have hreg : (execOp cfg st (.opClose h')).registry = removeReg st.registry h' := rfl
    rw [hreg, lookup_remove] at he
    by_cases hh : h' = h
    · rw [if_pos hh] at he
      exact Option.noConfusion he
    · rw [if_neg hh] at he
      exact hinv h e he

/-- The registry invariant holds in the initial state. -/
theorem reginv_init (cfg : WgConfig) : RegInv cfg initNetState.registry :=
  fun _ _ he => Option.noConfusion he

/-- The registry invariant holds after any sequence of facade operations. -/
theorem execOps_preserves_inv (cfg : WgConfig) (ops : List SockOp) :
    ∀ st : NetState, RegInv cfg st.registry →
      RegInv cfg (execOps cfg ops st).registry := by
  induction ops with
  | nil => intro st h; exact h
  | cons op rest ih =>
    intro st h
    exact ih (execOp cfg st op) (execOp_preserves_inv cfg st op h)

/-- C4: on any reachable state, a `recvfrom` on an InjectDelivery handle
that returns data reports a source address equal to the handle's stored
`peer_address` — the tunnel peer — and never the loopback address the OS
reported for the injected datagram, whatever apparent source the OS
delivered. -/
theorem recvfrom_rewrites_source (cfg : WgConfig) (ops : List SockOp) (h : Nat)
    (e : SocketEntry) (payload : List Nat) (src : Endpoint)
    (hle : lookupReg (execOps cfg ops initNetState).registry h = some e)
    (hm : e.mode = .injectDelivery)
    (hnl : cfg.tunnelPeer.host ≠ loopbackHost) :
    ∃ rp, wg_recvfrom cfg (execOps cfg ops initNetState) h
        (some (payload, src)) = some (payload, rp) ∧
      e.peer_address = some rp ∧ rp.host ≠ loopbackHost := by
  have hinv := execOps_preserves_inv cfg ops initNetState (reginv_init cfg)
  have hpe := (hinv h e hle).2
  refine ⟨cfg.tunnelPeer, ?_, hpe, hnl⟩
  simp [wg_recvfrom, hle, hm, hpe]

/-- C4 witness: after handle 5 is auto-registered by a `sendto` to the
tunnel peer, a `recvfrom` whose OS-reported source is loopback returns the
tunnel peer as the source. -/
theorem recvfrom_rewrites_source_witness :
    ∃ rp, wg_recvfrom wCfg (execOps wCfg wOps2 initNetState) 5
        (some ([7], ⟨loopbackHost, 4⟩)) = some ([7], rp) ∧
      (SocketEntry.mk .udp .injectDelivery (some ⟨1, 51820⟩) none).peer_address =
        some rp ∧
      rp.host ≠ loopbackHost :=
  recvfrom_rewrites_source wCfg wOps2 5
    ⟨.udp, .injectDelivery, some ⟨1, 51820⟩, none⟩ [7] ⟨loopbackHost, 4⟩
    rfl rfl (by decide)

/-- C5: a `send` or `recv` on a handle whose registry entry carries Virtual
TCP Connection state is dispatched to the Virtual TCP Transport; a handle
with no registry entry at all — e.g. one never seen by a prior
`sendto`/`connect` — is passed through unchanged to the real OS call and
receives exactly the real OS result, never an error due to the unknown
classification; an entry without TCP state also passes through. -/
theorem tcp_send_recv_dispatch (cfg : WgConfig) (st : NetState) (h : Nat)
    (data : List Nat) (n : Nat) :
    (lookupReg st.registry h = none →
      wg_tcp_send cfg st h data = (cfg.osSendRes h data, st) ∧
      wg_tcp_recv cfg st h n = (cfg.osRecvRes h n, st)) ∧
    (∀ e conn, lookupReg st.registry h = some e → e.tcp_state = some conn →
      wg_tcp_send cfg st h data =
        (((vtcpSend conn data).1 : Int),
         { st with registry := (insertReg st.registry h
             { e with tcp_state := some (vtcpSend conn data).2 }) }) ∧
      wg_tcp_recv cfg st h n =
        ((vtcpRecv conn n).1,
         { st with registry := (insertReg st.registry h
             { e with tcp_state := some (vtcpRecv conn n).2 }) })) ∧
    (∀ e, lookupReg st.registry h = some e → e.tcp_state = none →
      wg_tcp_send cfg st h data = (cfg.osSendRes h data, st) ∧
      wg_tcp_recv cfg st h n = (cfg.osRecvRes h n, st)) := by
  refine ⟨?_, ?_, ?_⟩
  · intro hl
    constructor <;> simp [wg_tcp_send, wg_tcp_recv, hl]
  · intro e conn hl hts
    constructor <;> simp [wg_tcp_send, wg_tcp_recv, hl, hts]
  · intro e hl hts
    constructor <;> simp [wg_tcp_send, wg_tcp_recv, hl, hts]

/-- C5 witness: an unknown handle 3 passes `send` through to the OS result,
and tracked handle 8 dispatches to the Virtual TCP Transport. -/
theorem tcp_send_recv_dispatch_witness :
    wg_tcp_send wCfg wSt1 3 [1] = (wCfg.osSendRes 3 [1], wSt1) ∧
    wg_tcp_send wCfg wStTcp 8 [1, 2] =
      (((vtcpSend (initVtcp 100 10) [1, 2]).1 : Int),
       { wStTcp with registry := (insertReg wStTcp.registry 8
           ⟨.tcp, .tunnelDirect, some ⟨1, 51820⟩,
            some (vtcpSend (initVtcp 100 10) [1, 2]).2⟩) }) := by
  constructor
  · exact ((tcp_send_recv_dispatch wCfg wSt1 3 [1] 0).1 rfl).1
  · exact ((tcp_send_recv_dispatch wCfg wStTcp 8 [1, 2] 0).2.1
      ⟨.tcp, .tunnelDirect, some ⟨1, 51820⟩, some (initVtcp 100 10)⟩
      (initVtcp 100 10) rfl rfl).1

/-- A `sendto` sequence on an InjectDelivery handle towards the tunnel peer
appends exactly one encapsulated datagram per payload, in order, and leaves
the registry unchanged. -/
theorem sendtoSeq_inject (cfg : WgConfig) (payloads : List (List Nat)) :
    ∀ (st : NetState) (h : Nat) (e : SocketEntry),
      lookupReg st.registry h = some e → e.mode = .injectDelivery →
      (sendtoSeq cfg st h payloads cfg.tunnelPeer).tunnelOut =
        st.tunnelOut ++ payloads.map (fun p => encapsulate cfg p cfg.tunnelPeer) ∧
      (sendtoSeq cfg st h payloads cfg.tunnelPeer).registry = st.registry := by
  induction payloads with
  | nil =>
    intro st h e _ _
    simp [sendtoSeq]
  | cons p rest ih =>
    intro st h e hl hm
    have hc : classifyUdp cfg st.registry h cfg.tunnelPeer = .injectDeliveryC := by
      simp [classifyUdp, hl, hm]
    have hstep : (wg_sendto cfg st h .udp p cfg.tunnelPeer).2 =
        { st with tunnelOut := st.tunnelOut ++ [encapsulate cfg p cfg.tunnelPeer] } := by
      simp [wg_sendto, hc]
    have hunf : sendtoSeq cfg st h (p :: rest) cfg.tunnelPeer =
        sendtoSeq cfg ((wg_sendto cfg st h .udp p cfg.tunnelPeer).2) h rest
          cfg.tunnelPeer := rfl
    rw [hunf, hstep]
    obtain ⟨h1, h2⟩ :=
      ih { st with tunnelOut := st.tunnelOut ++ [encapsulate cfg p cfg.tunnelPeer] }
        h e hl hm
    refine ⟨?_, h2⟩
    rw [h1]
    simp

/-- C7: over any sequence of `sendto` calls targeting the tunnel peer on a
handle that is fresh (auto-registered on first use) or already registered
for inject delivery, the layer hands the Tunnel Session exactly one
encapsulated datagram per payload, in order; and decapsulation inverts
encapsulation, so each payload reaches the peer-side decapsulation exactly
once and byte-for-byte identical, with the tunnel peer as true source. -/
theorem sendto_roundtrip_exactly_once (cfg : WgConfig) (st : NetState)
    (h : Nat) (payloads : List (List Nat))
    (hcrypto : ∀ b, cfg.decode (cfg.encode b) = some b) :
    (lookupReg st.registry h = none →
      (sendtoSeq cfg st h payloads cfg.tunnelPeer).tunnelOut =
        st.tunnelOut ++ payloads.map (fun p => encapsulate cfg p cfg.tunnelPeer)) ∧
    (∀ e, lookupReg st.registry h = some e → e.mode = .injectDelivery →
      (sendtoSeq cfg st h payloads cfg.tunnelPeer).tunnelOut =
        st.tunnelOut ++ payloads.map (fun p => encapsulate cfg p cfg.tunnelPeer)) ∧
    payloads.map (fun p => decapsulate cfg (encapsulate cfg p cfg.tunnelPeer)) =
      payloads.map (fun p => some (p, cfg.tunnelPeer)) := by
  refine ⟨?_, ?_, ?_⟩
  · intro hl
    cases payloads with
    | nil => simp [sendtoSeq]
    | cons p rest =>
      have hc : classifyUdp cfg st.registry h cfg.tunnelPeer = .autoRegisterInject := by
        simp [classifyUdp, hl]
      have hstep : (wg_sendto cfg st h .udp p cfg.tunnelPeer).2 =
          { st with
              registry := insertReg st.registry h
                ⟨.udp, .injectDelivery, some cfg.tunnelPeer, none⟩,
              tunnelOut := st.tunnelOut ++ [encapsulate cfg p cfg.tunnelPeer] } := by
        simp [wg_sendto, hc]
      have hunf : sendtoSeq cfg st h (p :: rest) cfg.tunnelPeer =
          sendtoSeq cfg ((wg_sendto cfg st h .udp p cfg.tunnelPeer).2) h rest
            cfg.tunnelPeer := rfl
      rw [hunf, hstep]
      obtain ⟨h1, _⟩ := sendtoSeq_inject cfg rest
        { st with
            registry := insertReg st.registry h
              ⟨.udp, .injectDelivery, some cfg.tunnelPeer, none⟩,
            tunnelOut := st.tunnelOut ++ [encapsulate cfg p cfg.tunnelPeer] }
        h ⟨.udp, .injectDelivery, some cfg.tunnelPeer, none⟩
        (lookup_insert_self _ _ _) rfl
      rw [h1]
      simp
  · intro e hl hm
    exact (sendtoSeq_inject cfg payloads st h e hl hm).1
  · apply List.map_congr_left
    intro p _
    simp [decapsulate, encapsulate, hcrypto]

/-- C7 witness: two concrete payloads sent from a fresh handle are
encapsulated exactly once each, and identity-crypto decapsulation returns
them byte-for-byte with the tunnel peer as source. -/
theorem sendto_roundtrip_exactly_once_witness :
    (sendtoSeq wCfg initNetState 5 [[1, 2], [3]] wCfg.tunnelPeer).tunnelOut =
      [[1, 2], [3]].map (fun p => encapsulate wCfg p wCfg.tunnelPeer) ∧
    [[1, 2], [3]].map
        (fun p => decapsulate wCfg (encapsulate wCfg p wCfg.tunnelPeer)) =
      [[1, 2], [3]].map (fun p => some (p, wCfg.tunnelPeer)) := by
  obtain ⟨h1, _, h3⟩ :=
    sendto_roundtrip_exactly_once wCfg initNetState 5 [[1, 2], [3]]
      (fun b => rfl)
  exact ⟨h1 rfl, h3⟩

/-- C8: once a handle is classified for tunnel use (TunnelDirect or
InjectDelivery), every later facade call before the handle is closed finds
the same classification: after any sequence of operations not closing the
handle, the registry still records the same mode, and the classifier returns
exactly that mode's classification for every destination — including
destinations different from the one that caused the classification. -/
theorem classification_sticky (cfg : WgConfig) (st : NetState) (h : Nat)
    (m : Mode) (e : SocketEntry) (ops : List SockOp)
    (hle : lookupReg st.registry h = some e) (hem : e.mode = m)
    (hm : m = .tunnelDirect ∨ m = .injectDelivery)
    (hops : ∀ op ∈ ops, op ≠ .opClose h) :
    ∃ e', lookupReg (execOps cfg ops st).registry h = some e' ∧ e'.mode = m ∧
      ∀ dest, classifyUdp cfg (execOps cfg ops st).registry h dest = modeClass m := by
  have main : ∀ (l : List SockOp) (s : NetState),
      (∀ op ∈ l, op ≠ .opClose h) →
      (∃ e0, lookupReg s.registry h = some e0 ∧ e0.mode = m) →
      ∃ e', lookupReg (execOps cfg l s).registry h = some e' ∧ e'.mode = m := by
    intro l
    induction l with
    | nil => intro s _ hs; exact hs
    | cons op rest ih =>
      intro s hl hs
      have h1 := execOp_preserves_mode cfg s h m op hm (hl op (by simp)) hs
      have hrest : ∀ o ∈ rest, o ≠ .opClose h := fun o ho => hl o (by simp [ho])
      exact ih (execOp cfg s op) hrest h1
  obtain ⟨e', he', hm'⟩ := main ops st hops ⟨e, hle, hem⟩
  refine ⟨e', he', hm', fun dest => ?_⟩
  have := classify_of_mode cfg (execOps cfg ops st).registry h dest e' he'
    (by rw [hm']; exact hm)
  rw [this, hm']

/-- C8 witness: a handle auto-registered by a `sendto` to the tunnel peer is
still classified InjectDelivery after a later `sendto` to a different
destination and an unrelated connect, and the classifier answers
InjectDelivery for the different destination too. -/
theorem classification_sticky_witness :
    ∃ e', lookupReg (execOps wCfg wOps1 wSt1).registry 5 = some e' ∧
      e'.mode = .injectDelivery ∧
      classifyUdp wCfg (execOps wCfg wOps1 wSt1).registry 5 ⟨9, 9⟩ =
        modeClass .injectDelivery := by
  obtain ⟨e', h1, h2, h3⟩ := classification_sticky wCfg wSt1 5 .injectDelivery
    ⟨.udp, .injectDelivery, some ⟨1, 51820⟩, none⟩ wOps1 rfl rfl (Or.inr rfl)
    (by decide)
  exact ⟨e', h1, h2, h3 ⟨9, 9⟩⟩

/-- C2 (amended): a `connect` on a UDP socket whose destination is the
tunnel peer performs no real OS connect and records the destination as
`peer_address` — on a TunnelDirect entry when the handle had no prior tunnel
classification, while a handle already classified for tunnel use keeps its
sticky classification; a `connect` on a non-UDP socket or with a non-tunnel
destination performs the real OS connect unchanged and returns its result. -/
theorem connect_tunnel_udp_behavior (cfg : WgConfig) (st : NetState) (h : Nat)
    (proto : Protocol) (dest : Endpoint) :
    (proto = .udp → dest = cfg.tunnelPeer →
      (wg_udp_connect cfg st h proto dest).2.osConnects = st.osConnects ∧
      ∃ e', lookupReg (wg_udp_connect cfg st h proto dest).2.registry h = some e' ∧
        e'.peer_address = some dest ∧
        (lookupReg st.registry h = none → e'.mode = .tunnelDirect) ∧
        (∀ e, lookupReg st.registry h = some e →
          ¬(e.mode = .tunnelDirect ∨ e.mode = .injectDelivery) →
          e'.mode = .tunnelDirect) ∧
        (∀ e, lookupReg st.registry h = some e →
          (e.mode = .tunnelDirect ∨ e.mode = .injectDelivery) →
          e'.mode = e.mode)) ∧
    (¬(proto = .udp ∧ dest = cfg.tunnelPeer) →
      wg_udp_connect cfg st h proto dest =
        (cfg.osConnectRes h dest,
         { st with osConnects := st.osConnects ++ [(h, dest)] })) := by
  constructor
  · intro hp hd
    subst hp
    subst hd
    cases hl : lookupReg st.registry h with
    | none =>
      refine ⟨by simp [wg_udp_connect, hl],
        ⟨.udp, .tunnelDirect, some cfg.tunnelPeer, none⟩, ?_, rfl, ?_, ?_, ?_⟩
      · simp [wg_udp_connect, hl, lookup_insert_self]
      · intro _; rfl
      · intro e2 he2
        exact absurd he2 (by simp)
      · intro e2 he2
        exact absurd he2 (by simp)
    | some e =>
      by_cases hm : e.mode = .tunnelDirect ∨ e.mode = .injectDelivery
      · refine ⟨by simp [wg_udp_connect, hl, hm],
          { e with peer_address := some cfg.tunnelPeer }, ?_, rfl, ?_, ?_, ?_⟩
        · simp [wg_udp_connect, hl, hm, lookup_insert_self]
        · intro hnone
          exact absurd hnone (by simp)
        · intro e2 he2 hne
          obtain rfl := Option.some.inj he2
          exact absurd hm hne
        · intro e2 he2 _
          obtain rfl := Option.some.inj he2
          rfl
      · refine ⟨by simp [wg_udp_connect, hl, hm],
          ⟨.udp, .tunnelDirect, some cfg.tunnelPeer, none⟩, ?_, rfl, ?_, ?_, ?_⟩
        · simp [wg_udp_connect, hl, hm, lookup_insert_self]
        · intro _; rfl
        · intro _ _ _; rfl
        · intro e2 he2 hm2
          obtain rfl := Option.some.inj he2
          exact absurd hm2 hm
  · intro hcond
    simp [wg_udp_connect, hcond]

/-- C2 counterexample against the claim as stated: on a state whose handle 5
is already classified InjectDelivery, a UDP `connect` to the tunnel peer
skips the real OS connect but the resulting entry is not TunnelDirect — the
sticky classification is kept instead. -/
theorem connect_not_always_tunneldirect_cex :
    (wg_udp_connect wCfg wSt1 5 .udp wCfg.tunnelPeer).2.osConnects = [] ∧
    lookupReg (wg_udp_connect wCfg wSt1 5 .udp wCfg.tunnelPeer).2.registry 5 =
      some ⟨.udp, .injectDelivery, some ⟨1, 51820⟩, none⟩ ∧
    Mode.injectDelivery ≠ Mode.tunnelDirect :=
  ⟨rfl, rfl, by decide⟩

/-- C2 witness: on a fresh handle the UDP connect to the tunnel peer
registers a TunnelDirect entry without an OS connect, and a TCP connect to
the same destination passes through to the real OS connect. -/
theorem connect_tunnel_udp_behavior_witness :
    (wg_udp_connect wCfg initNetState 3 .udp wCfg.tunnelPeer).2.osConnects = [] ∧
    (∃ e', lookupReg (wg_udp_connect wCfg initNetState 3 .udp
        wCfg.tunnelPeer).2.registry 3 = some e' ∧ e'.mode = .tunnelDirect) ∧
    wg_udp_connect wCfg initNetState 3 .tcp wCfg.tunnelPeer =
      (wCfg.osConnectRes 3 wCfg.tunnelPeer,
       { initNetState with osConnects := [(3, wCfg.tunnelPeer)] }) := by
  obtain ⟨h1, _⟩ := connect_tunnel_udp_behavior wCfg initNetState 3 .udp wCfg.tunnelPeer
  obtain ⟨ha, e', he', _, hnone, _, _⟩ := h1 rfl rfl
  refine ⟨ha, ⟨e', he', hnone rfl⟩, ?_⟩
  exact (connect_tunnel_udp_behavior wCfg initNetState 3 .tcp wCfg.tunnelPeer).2
    (by decide)

/-- C3 (amended): the UDP classifier returns AutoRegisterInject when the
destination is the tunnel peer and the handle has no registry entry; returns
the handle's existing classification when a TunnelDirect or InjectDelivery
entry exists; and returns Passthrough when the destination is not the tunnel
peer and the handle has no tunnel classification. -/
theorem classify_udp_spec (cfg : WgConfig) (reg : List (Nat × SocketEntry))
    (h : Nat) (dest : Endpoint) :
    (lookupReg reg h = none → dest = cfg.tunnelPeer →
      classifyUdp cfg reg h dest = .autoRegisterInject) ∧
    (∀ e, lookupReg reg h = some e → e.mode = .tunnelDirect →
      classifyUdp cfg reg h dest = .tunnelDirectC) ∧
    (∀ e, lookupReg reg h = some e → e.mode = .injectDelivery →
      classifyUdp cfg reg h dest = .injectDeliveryC) ∧
    (dest ≠ cfg.tunnelPeer →
      (lookupReg reg h = none ∨
        ∃ e, lookupReg reg h = some e ∧ e.mode = .untracked) →
      classifyUdp cfg reg h dest = .passthrough) := by
  refine ⟨?_, ?_, ?_, ?_⟩
  · intro hl hd
    simp [classifyUdp, hl, hd]
  · intro e hl hm
    simp [classifyUdp, hl, hm]
  · intro e hl hm
    simp [classifyUdp, hl, hm]
  · intro hd hl
    rcases hl with hl | ⟨e, hl, hm⟩
    · simp [classifyUdp, hl, hd]
    · simp [classifyUdp, hl, hm, hd]

/-- C3 counterexample against the claim as stated: a destination different
from the tunnel peer does not always classify as Passthrough — a handle with
a sticky tunnel classification keeps it for any destination. -/
theorem classify_not_always_passthrough_cex :
    (⟨9, 9⟩ : Endpoint) ≠ wCfg.tunnelPeer ∧
    classifyUdp wCfg wSt1.registry 5 ⟨9, 9⟩ ≠ .passthrough := by
  refine ⟨by decide, by decide⟩

/-- C3 witness: the three amended classifier cases at concrete inputs — a
fresh handle to the tunnel peer auto-registers, handle 5's InjectDelivery
entry classifies InjectDelivery, and a fresh handle to a foreign destination
passes through. -/
theorem classify_udp_spec_witness :
    classifyUdp wCfg [] 3 wCfg.tunnelPeer = .autoRegisterInject ∧
    classifyUdp wCfg wSt1.registry 5 ⟨9, 9⟩ = .injectDeliveryC ∧
    classifyUdp wCfg [] 3 ⟨9, 9⟩ = .passthrough := by
  refine ⟨(classify_udp_spec wCfg [] 3 wCfg.tunnelPeer).1 rfl rfl, ?_, ?_⟩
  · exact (classify_udp_spec wCfg wSt1.registry 5 ⟨9, 9⟩).2.2.1
      ⟨.udp, .injectDelivery, some ⟨1, 51820⟩, none⟩ rfl rfl
  · exact (classify_udp_spec wCfg [] 3 ⟨9, 9⟩).2.2.2 (by decide) (Or.inl rfl)

/-- A key found in the receive set is among its stored keys. -/
theorem lookupKey_mem_keys (got : List (Nat × List Nat)) (i : Nat)
    (h : lookupKey i got ≠ none) : i ∈ got.map Prod.fst := by
  induction got with
  | nil => exact absurd rfl h
  | cons kv rest ih =>
    obtain ⟨k, v⟩ := kv
    by_cases hk : k = i
    · subst hk
      simp
    · simp only [lookupKey, if_neg hk] at h
      simp only [List.map_cons, List.mem_cons]
      exact Or.inr (ih h)

/-- Inserting a segment never removes an existing key. -/
theorem lookupKey_rsInsert_preserve (got : List (Nat × List Nat))
    (seg : Nat × List Nat) (i : Nat) (h : lookupKey i got ≠ none) :
    lookupKey i (rsInsert got seg) ≠ none := by
  obtain ⟨k, v⟩ := seg
  unfold rsInsert
  cases hl : lookupKey k got with
  | some d => exact h
  | none =>
    by_cases hk : k = i
    · simp [lookupKey, hk]
    · simp only [lookupKey, if_neg hk]
      exact h

/-- After inserting a segment its key is present. -/
theorem lookupKey_rsInsert_self (got : List (Nat × List Nat))
    (seg : Nat × List Nat) : lookupKey seg.1 (rsInsert got seg) ≠ none := by
  obtain ⟨k, v⟩ := seg
  unfold rsInsert
  cases hl : lookupKey k got with
  | some d => simp [hl]
  | none => simp [lookupKey]

/-- Inserting a correct segment preserves soundness of the receive set with
respect to the segment list. -/
theorem segsSound_insert (segs : List (List Nat)) (got : List (Nat × List Nat))
    (seg : Nat × List Nat)
    (hs : ∀ i d, lookupKey i got = some d →
      ∃ hi : i < segs.length, d = segs.get ⟨i, hi⟩)
    (hseg : ∃ hi : seg.1 < segs.length, seg.2 = segs.get ⟨seg.1, hi⟩) :
    ∀ i d, lookupKey i (rsInsert got seg) = some d →
      ∃ hi : i < segs.length, d = segs.get ⟨i, hi⟩ := by
  obtain ⟨k, v⟩ := seg
  intro i d h
  unfold rsInsert at h
  cases hl : lookupKey k got with
  | some d0 =>
    rw [hl] at h
    exact hs i d h
  | none =>
    rw [hl] at h
    by_cases hk : k = i
    · subst hk
      simp only [lookupKey, if_pos rfl] at h
      obtain rfl := Option.some.inj h
      exact hseg
    · simp only [lookupKey, if_neg hk] at h
      exact hs i d h

/-- Folding a well-formed delivery schedule into the receive set keeps it
sound with respect to the segment list. -/
theorem segsSound_run (segs : List (List Nat)) :
    ∀ (sched : List (Nat × List Nat)) (got : List (Nat × List Nat)),
      (∀ x ∈ sched, ∃ hi : x.1 < segs.length, x.2 = segs.get ⟨x.1, hi⟩) →
      (∀ i d, lookupKey i got = some d →
        ∃ hi : i < segs.length, d = segs.get ⟨i, hi⟩) →
      ∀ i d, lookupKey i (sched.foldl rsInsert got) = some d →
        ∃ hi : i < segs.length, d = segs.get ⟨i, hi⟩ := by
  intro sched
  induction sched with
  | nil => intro got _ hs; exact hs
  | cons x rest ih =>
    intro got hwf hs
    exact ih (rsInsert got x) (fun y hy => hwf y (List.mem_cons_of_mem _ hy))
      (segsSound_insert segs got x hs (hwf x (List.mem_cons_self _ _)))

/-- Any key delivered somewhere in the schedule is present after the fold. -/
theorem cover_run (sched : List (Nat × List Nat)) :
    ∀ (got : List (Nat × List Nat)) (i : Nat),
      (lookupKey i got ≠ none ∨ ∃ d, (i, d) ∈ sched) →
      lookupKey i (sched.foldl rsInsert got) ≠ none := by
  induction sched with
  | nil =>
    intro got i h
    rcases h with h | ⟨d, hd⟩
    · exact h
    · exact absurd hd (List.not_mem_nil _)
  | cons x rest ih =>
    intro got i h
    rcases h with h | ⟨d, hd⟩
    · exact ih (rsInsert got x) i (Or.inl (lookupKey_rsInsert_preserve got x i h))
    · rcases List.mem_cons.mp hd with heq | hmem
      · subst heq
        exact ih (rsInsert got (i, d)) i
          (Or.inl (lookupKey_rsInsert_self got (i, d)))
      · exact ih (rsInsert got x) i (Or.inr ⟨d, hmem⟩)

/-- Reading from sequence number `i` with enough fuel returns the
concatenation of the remaining segments, when the receive set holds exactly
the segments of the list. -/
theorem readFrom_flatten (segs : List (List Nat)) (got : List (Nat × List Nat))
    (hsound : ∀ i d, lookupKey i got = some d →
      ∃ hi : i < segs.length, d = segs.get ⟨i, hi⟩)
    (hcov : ∀ i (hi : i < segs.length),
      lookupKey i got = some (segs.get ⟨i, hi⟩)) :
    ∀ (fuel i : Nat), segs.length ≤ i + fuel →
      readFrom got fuel i = (segs.drop i).flatten := by
  intro fuel
  induction fuel with
  | zero =>
    intro i hile
    rw [List.drop_eq_nil_of_le (by omega)]
    rfl
  | succ f ih =>
    intro i hile
    by_cases hi : i < segs.length
    · have hgot := hcov i hi
      simp only [readFrom, hgot]
      rw [ih (i + 1) (by omega)]
      rw [List.drop_eq_getElem_cons hi, List.flatten_cons]
      rfl
    · have hlen : segs.length ≤ i := Nat.le_of_not_lt hi
      have hnone : lookupKey i got = none := by
        cases hk : lookupKey i got with
        | none => rfl
        | some d =>
          obtain ⟨hi2, _⟩ := hsound i d hk
          omega
      simp only [readFrom, hnone]
      rw [List.drop_eq_nil_of_le hlen]
      rfl

/-- Chunking preserves the byte stream: the chunks concatenate back to the
original bytes, for any positive chunk size and sufficient fuel. -/
theorem segmentChunks_flatten (chunk : Nat) (hc : chunk ≠ 0) :
    ∀ (fuel : Nat) (bytes : List Nat), bytes.length ≤ fuel →
      (segmentChunks chunk fuel bytes).flatten = bytes := by
  intro fuel
  induction fuel with
  | zero =>
    intro bytes hlen
    have hb : bytes = [] := List.length_eq_zero.mp (Nat.le_zero.mp hlen)
    subst hb
    rfl
  | succ f ih =>
    intro bytes hlen
    cases bytes with
    | nil => rfl
    | cons b rest =>
      have hstep : segmentChunks chunk (f + 1) (b :: rest) =
          (b :: rest).take chunk :: segmentChunks chunk f ((b :: rest).drop chunk) := rfl
      rw [hstep, List.flatten_cons, ih ((b :: rest).drop chunk) ?_]
      · exact List.take_append_drop chunk (b :: rest)
      · rw [List.length_drop]
        have hpos : 0 < chunk := Nat.pos_of_ne_zero hc
        simp only [List.length_cons] at hlen ⊢
        omega

/-- The chunks of `segmentBytes` concatenate back to the original stream. -/
theorem segmentBytes_flatten (chunk : Nat) (hc : chunk ≠ 0)
    (bytes : List Nat) : (segmentBytes chunk bytes).flatten = bytes :=
  segmentChunks_flatten chunk hc bytes.length bytes le_rfl

/-- Delivering a schedule only folds the segments into the receive set; the
read pointer is untouched. -/
theorem deliverAll_fields (sched : List (Nat × List Nat)) :
    ∀ conn : VtcpConn, (vtcpDeliverAll conn sched).rcvSet =
      sched.foldl rsInsert conn.rcvSet ∧
    (vtcpDeliverAll conn sched).readPtr = conn.readPtr := by
  induction sched with
  | nil => intro conn; exact ⟨rfl, rfl⟩
  | cons x rest ih => intro conn; exact ih (vtcpDeliver conn x)

/-- A sequence of `recv` calls returns, in order, a prefix of the contiguous
receive stream of total length the sum of the requested sizes (or all the
remaining stream if shorter). -/
theorem vtcpRecvAll_take (sizes : List Nat) :
    ∀ conn : VtcpConn,
      (vtcpRecvAll conn sizes).1 =
        ((contigStream conn.rcvSet).drop conn.readPtr).take sizes.sum := by
  induction sizes with
  | nil =>
    intro conn
    simp [vtcpRecvAll]
  | cons n rest ih =>
    intro conn
    have hstep : (vtcpRecvAll conn (n :: rest)).1 =
        ((contigStream conn.rcvSet).drop conn.readPtr).take n ++
          (vtcpRecvAll { conn with readPtr :=
            conn.readPtr + (((contigStream conn.rcvSet).drop conn.readPtr).take n).length }
            rest).1 := rfl
    rw [hstep, ih]
    have hset : ({ conn with readPtr :=
        conn.readPtr + (((contigStream conn.rcvSet).drop conn.readPtr).take n).length } :
        VtcpConn).rcvSet = conn.rcvSet := rfl
    rw [hset]
    by_cases hcase : n ≤ ((contigStream conn.rcvSet).drop conn.readPtr).length
    · have hout : (((contigStream conn.rcvSet).drop conn.readPtr).take n).length = n := by
        rw [List.length_take]
        omega
      rw [hout, List.sum_cons, List.take_add]
      have hdd : ((contigStream conn.rcvSet).drop conn.readPtr).drop n =
          (contigStream conn.rcvSet).drop (conn.readPtr + n) := by
        rw [List.drop_drop]
      rw [hdd]
    · have hlt : ((contigStream conn.rcvSet).drop conn.readPtr).length < n :=
        Nat.lt_of_not_le hcase
      have hout : (((contigStream conn.rcvSet).drop conn.readPtr).take n).length =
          ((contigStream conn.rcvSet).drop conn.readPtr).length := by
        rw [List.length_take]
        omega
      rw [hout]
      have hall : ((contigStream conn.rcvSet).drop conn.readPtr).take n =
          (contigStream conn.rcvSet).drop conn.readPtr :=
        List.take_of_length_le (Nat.le_of_lt hlt)
      have hnil : (contigStream conn.rcvSet).drop
          (conn.readPtr + ((contigStream conn.rcvSet).drop conn.readPtr).length) = [] := by
        apply List.drop_eq_nil_of_le
        rw [List.length_drop]
        omega
      rw [hall, hnil, List.sum_cons]
      have htail : ((contigStream conn.rcvSet).drop conn.readPtr).take (n + rest.sum) =
          (contigStream conn.rcvSet).drop conn.readPtr := by
        apply List.take_of_length_le
        omega
      rw [htail]
      simp

/-- C6: over every delivery schedule of the tunnel datagrams carrying a
Virtual TCP Connection's segments — any order, any retransmitted duplicates
— the bytes returned by the `recv` calls reconstruct exactly the byte
sequence written by the `send` calls, in order, without duplication:
duplicates are dropped by sequence number, gaps are held back, and the
contiguous stream equals the concatenation of the sent payloads. -/
theorem vtcp_stream_reconstruction (sends : List (List Nat)) (chunk : Nat)
    (sched : List (Nat × List Nat)) (sizes : List Nat)
    (capacity window : Nat) (hc : chunk ≠ 0)
    (hwf : ∀ x ∈ sched,
      ∃ hi : x.1 < (segmentBytes chunk sends.flatten).length,
        x.2 = (segmentBytes chunk sends.flatten).get ⟨x.1, hi⟩)
    (hcov : ∀ i (hi : i < (segmentBytes chunk sends.flatten).length),
      (i, (segmentBytes chunk sends.flatten).get ⟨i, hi⟩) ∈ sched)
    (hsz : sends.flatten.length ≤ sizes.sum) :
    (vtcpRecvAll (vtcpDeliverAll (initVtcp capacity window) sched) sizes).1 =
      sends.flatten := by
  have hfields := deliverAll_fields sched (initVtcp capacity window)
  have hgot : (vtcpDeliverAll (initVtcp capacity window) sched).rcvSet =
      sched.foldl rsInsert [] := hfields.1
  have hptr : (vtcpDeliverAll (initVtcp capacity window) sched).readPtr = 0 :=
    hfields.2
  have hsound : ∀ i d, lookupKey i (sched.foldl rsInsert []) = some d →
      ∃ hi : i < (segmentBytes chunk sends.flatten).length,
        d = (segmentBytes chunk sends.flatten).get ⟨i, hi⟩ :=
    segsSound_run (segmentBytes chunk sends.flatten) sched [] hwf
      (fun _ _ h => Option.noConfusion h)
  have hfull : ∀ i (hi : i < (segmentBytes chunk sends.flatten).length),
      lookupKey i (sched.foldl rsInsert []) =
        some ((segmentBytes chunk sends.flatten).get ⟨i, hi⟩) := by
    intro i hi
    have hne := cover_run sched [] i (Or.inr ⟨_, hcov i hi⟩)
    cases hk : lookupKey i (sched.foldl rsInsert []) with
    | none => exact absurd hk hne
    | some d =>
      obtain ⟨hi2, hd⟩ := hsound i d hk
      subst hd
      rfl
  have hcard : (segmentBytes chunk sends.flatten).length ≤
      (sched.foldl rsInsert []).length := by
    have hsub : List.range (segmentBytes chunk sends.flatten).length ⊆
        (sched.foldl rsInsert []).map Prod.fst := by
      intro i hi
      have hilt := List.mem_range.mp hi
      exact lookupKey_mem_keys _ i (by rw [hfull i hilt]; exact Option.noConfusion)
    have hlen := ((List.nodup_range _).subperm hsub).length_le
    rw [List.length_range, List.length_map] at hlen
    exact hlen
  have hstream : contigStream (sched.foldl rsInsert []) = sends.flatten := by
    unfold contigStream
    rw [readFrom_flatten (segmentBytes chunk sends.flatten)
      (sched.foldl rsInsert []) hsound hfull ((sched.foldl rsInsert []).length + 1) 0
      (by omega)]
    rw [List.drop_zero]
    exact segmentBytes_flatten chunk hc sends.flatten
  rw [vtcpRecvAll_take sizes, hgot, hptr, hstream, List.drop_zero]
  exact List.take_of_length_le hsz

/-- C6 witness: the stream `[1,2,3] ++ [4,5]` cut into 2-byte segments,
delivered out of order with a duplicated first segment, is reconstructed
exactly by two `recv` calls. -/
theorem vtcp_stream_reconstruction_witness :
    (2 : Nat) ≠ 0 ∧
    (vtcpRecvAll
      (vtcpDeliverAll (initVtcp 0 0)
        [(2, [5]), (0, [1, 2]), (1, [3, 4]), (0, [1, 2])])
      [3, 4]).1 = [1, 2, 3, 4, 5] := by
  refine ⟨by decide, ?_⟩
  have h := vtcp_stream_reconstruction [[1, 2, 3], [4, 5]] 2
    [(2, [5]), (0, [1, 2]), (1, [3, 4]), (0, [1, 2])] [3, 4] 0 0
    (by decide)
    ?_ ?_ (by decide)
  · exact h
  · intro x hx
    fin_cases hx
    · exact ⟨by decide, by decide⟩
    · exact ⟨by decide, by decide⟩
    · exact ⟨by decide, by decide⟩
    · exact ⟨by decide, by decide⟩
  · intro i hi
    have h3 : i < 3 := hi
    interval_cases i
    · exact List.mem_cons_of_mem _ (List.mem_cons_self _ _)
    · exact List.mem_cons_of_mem _ (List.mem_cons_of_mem _ (List.mem_cons_self _ _))
    · exact List.mem_cons_self _ _

/-- C9: the Virtual TCP `send` returns exactly the number of bytes accepted
into the send buffer — the minimum of the requested length and the buffer's
free capacity, never more than requested; the accepted prefix is appended to
the buffer (excess retained there, not lost); and a 10,000-byte send into an
empty buffer returns min 10,000 capacity for every flow-control window, in
particular a 1,400-byte window — the window limits transmission, not
acceptance, so the call completes without blocking. -/
theorem vtcp_send_accepts (conn : VtcpConn) (data : List Nat) :
    (vtcpSend conn data).1 =
      min data.length (conn.capacity - conn.sendBuf.length) ∧
    (vtcpSend conn data).1 ≤ data.length ∧
    (vtcpSend conn data).2.sendBuf =
      conn.sendBuf ++ data.take (vtcpSend conn data).1 ∧
    (conn.sendBuf = [] → data.length = 10000 →
      (vtcpSend conn data).1 = min 10000 conn.capacity) := by
  refine ⟨rfl, ?_, rfl, ?_⟩
  · simp only [vtcpSend]
    exact Nat.min_le_left _ _
  · intro hbuf hlen
    simp [vtcpSend, hbuf, hlen]

/-- C9 witness: sending 10,000 bytes on an empty-buffer connection with a
1,400-byte window and 10,000-byte capacity accepts all 10,000 bytes. -/
theorem vtcp_send_accepts_witness :
    (VtcpConn.mk 10000 1400 [] 0 [] 0).sendBuf = [] ∧
    (List.replicate 10000 0).length = 10000 ∧
    (vtcpSend ⟨10000, 1400, [], 0, [], 0⟩ (List.replicate 10000 0)).1 = 10000 := by
  refine ⟨rfl, by rw [List.length_replicate], ?_⟩
  have h :=
    (vtcp_send_accepts ⟨10000, 1400, [], 0, [], 0⟩ (List.replicate 10000 0)).2.2.2
      rfl (by rw [List.length_replicate])
  rw [Nat.min_self] at h
  exact h

/-- C1: every call site of the five standard socket calls compiled with the
interception header is replaced at compile time by a call to the
corresponding tunnel-aware function (`wg_sendto`, `wg_recvfrom`,
`wg_udp_connect`, `wg_tcp_send`, `wg_tcp_recv`) with exactly the same
arguments in exactly the same order. -/
theorem intercept_rules_preserve_call_shape (s b l f a al : String) :
    expandRule sendtoRule ⟨"sendto", [s, b, l, f, a, al]⟩ =
        some ⟨"wg_sendto", [s, b, l, f, a, al]⟩ ∧
    expandRule recvfromRule ⟨"recvfrom", [s, b, l, f, a, al]⟩ =
        some ⟨"wg_recvfrom", [s, b, l, f, a, al]⟩ ∧
    expandRule connectRule ⟨"connect", [s, a, l]⟩ =
        some ⟨"wg_udp_connect", [s, a, l]⟩ ∧
    expandRule sendRule ⟨"send", [s, b, l, f]⟩ =
        some ⟨"wg_tcp_send", [s, b, l, f]⟩ ∧
    expandRule recvRule ⟨"recv", [s, b, l, f]⟩ =
        some ⟨"wg_tcp_recv", [s, b, l, f]⟩ :=
  ⟨rfl, rfl, rfl, rfl, rfl⟩

/-- C10: every `connect` call site — whatever its three argument tokens, so
in particular TCP connects and connects to non-tunnel destinations — is
redirected to the single function `wg_udp_connect` with the three arguments
unchanged; no protocol or destination check occurs at substitution time. The
per-protocol passthrough decision is made at runtime inside
`wg_udp_connect`: on the same state and destination, the TCP call performs a
real OS connect while the UDP call to the tunnel peer does not. -/
theorem connect_substitution_unconditional (s a l : String) (cfg : WgConfig)
    (st : NetState) (h : Nat) :
    expandRule connectRule ⟨"connect", [s, a, l]⟩ =
        some ⟨"wg_udp_connect", [s, a, l]⟩ ∧
    (wg_udp_connect cfg st h .tcp cfg.tunnelPeer).2.osConnects =
        st.osConnects ++ [(h, cfg.tunnelPeer)] ∧
    (wg_udp_connect cfg st h .udp cfg.tunnelPeer).2.osConnects =
        st.osConnects := by
  refine ⟨rfl, ?_, ?_⟩
  · simp [wg_udp_connect]
  · cases hl : lookupReg st.registry h with
    | none => simp [wg_udp_connect, hl]
    | some e =>
      by_cases hm : e.mode = .tunnelDirect ∨ e.mode = .injectDelivery
      · simp [wg_udp_connect, hl, hm]
      · simp [wg_udp_connect, hl, hm]

end WgIntercept
